import Mathlib

/-!
Verification of the masterkey multi-step authentication orchestrator.

The development shallowly embeds the core of the repository:
- `TokenManager` (`lib/TokenManager.js`): `_verifyPreviousToken`,
  `_getTokenForSecret`, `getToken`, `requestChallenge`;
- the `AuthResult` value object (`lib/Types/AuthResult.js`);
- the signed-token primitive (`jsonwebtoken`'s `sign`/`verify`), which is an
  external dependency and is modelled at the interface the spec gives it.

JavaScript-specific behaviour is carried over faithfully:
- `Array.prototype.indexOf` returns `-1` on a miss, so indices are `Int`
  (`jsIndexOf` below);
- the guard `if (!method)` treats the empty string like `null`/`undefined`
  (`jsFalsyStr` below);
- out-of-bounds array access yields `undefined`, modelled with `Option`.
-/

namespace Masterkey

/-- JS truthiness of the optional `method` parameter: `null`/`undefined`
and the empty string are falsy, every other string is truthy. -/
def jsFalsyStr : Option String → Bool
  | none => true
  | some s => decide (s = "")

/-- JS `Array.prototype.indexOf` on a list of strings: the index of the first
occurrence, or `-1` when the element is absent. -/
def jsIndexOf (l : List String) (s : String) : Int :=
  match l with
  | [] => -1
  | a :: rest =>
    if a = s then 0
    else
      let r := jsIndexOf rest s
      if r < 0 then -1 else r + 1

/-- Claims carried by a continuation token minted by the orchestrator:
the registered subject, the custom claims `from` (named `fromClaim` here,
`from` being reserved in Lean) and `final`, and the expiry instant. -/
structure TokenClaims where
  subject : String
  fromClaim : String
  final : Bool
  exp : Nat
deriving DecidableEq, Repr

/-- A signed token as produced by the signing primitive: the algorithm tag,
the signing key it was produced under, and the claim set. -/
structure SignedToken where
  alg : String
  key : String
  claims : TokenClaims
deriving DecidableEq, Repr

/-- Errors surfaced by the orchestrator and its collaborators. -/
inductive Err where
  /-- a plain `Error` thrown during method resolution (a sequencing error) -/
  | seq (msg : String)
  /-- `JWT.verify` rejected the supplied token -/
  | tokenInvalid (msg : String)
  /-- an `AuthenticationFailed` error raised by a backend -/
  | authenticationFailed (data : String)
  /-- any other error raised by a backend -/
  | backendError (msg : String)
  /-- a JS `TypeError` from calling something `undefined` -/
  | typeError (msg : String)
  /-- a value-object constructor rejected its input -/
  | invalidValueObject (msg : String)
deriving DecidableEq, Repr

/-- Number of seconds in the configured token lifetime (`expiresIn: '8h'`). -/
def eightHours : Nat := 28800

namespace JWT

/-- Modelled from the spec: the Signed Token Primitive's signing half
(`jsonwebtoken`'s `JWT.sign`, an external dependency). It "signs a claim set
with an expiry and a subject binding": the token records the fixed `HS256`
algorithm, the key, the subject, the custom claims and the expiry
(`now + 8h`). -/
def sign (payloadFrom : String) (payloadFinal : Bool) (key : String)
    (subject : String) (now : Nat) : SignedToken :=
  { alg := "HS256"
    key := key
    claims :=
      { subject := subject
        fromClaim := payloadFrom
        final := payloadFinal
        exp := now + eightHours } }

/-- Modelled from the spec: the Signed Token Primitive's verifying half
(`jsonwebtoken`'s `JWT.verify`, an external dependency). It "verifies and
decodes a token, failing if the signature, expiry, or subject do not match";
the call site fixes `algorithms: ['HS256']` and `subject: subjectID`. -/
def verify (token : SignedToken) (key : String) (subject : String)
    (now : Nat) : Except Err TokenClaims :=
  if token.alg = "HS256" ∧ token.key = key ∧ token.claims.subject = subject ∧
      now < token.claims.exp then
    .ok token.claims
  else
    .error (.tokenInvalid "invalid token")

end JWT

/-- The challenge DTO (`lib/Types/AuthChallenge.js`). -/
structure AuthChallenge where
  content : Option String
  method : String
  sent : Bool
deriving DecidableEq, Repr

/-- An authentication backend, as consumed by the `TokenManager`:
`authenticate` is mandatory, `requestChallenge` optional (`none` models a
backend object without that property). -/
structure Backend where
  authenticate : String → String → Except Err Unit
  requestChallenge : Option (String → Except Err AuthChallenge)

/-- The `tokenParameters` configuration object (only `key` is used). -/
structure TokenParameters where
  key : String

/-- The orchestrator's configuration (`TokenManager` constructor). `userDB`
and `revokeDB` are stored but never read by the methods under study, so they
are omitted. `authBackends` is a JS object, i.e. a partial map from method
name to backend. -/
structure TokenManager where
  authBackends : String → Option Backend
  authSteps : List String
  tokenParameters : TokenParameters

/-- The result DTO (`lib/Types/AuthResult.js`), parametric in the token type
so that both the literal string constructor and the orchestrator's use with a
minted signed token can be stated. -/
structure AuthResult (τ : Type) where
  token : τ
  final : Bool
  next : Option (List String)
deriving DecidableEq, Repr

/-- The `AuthResult` constructor. The JS check is
`!token || (!final && (!next || !Array.isArray(next) || next.length === 0))`:
`tokenIsEmpty` supplies JS string falsiness for the token type
(`Array.isArray(next)` always holds at this type). -/
def AuthResult.construct {τ : Type} (tokenIsEmpty : τ → Bool) (token : τ)
    (final : Bool) (next : Option (List String)) : Except Err (AuthResult τ) :=
  if tokenIsEmpty token = true ∨
      (final = false ∧ (next = none ∨ next = some [])) then
    .error (.invalidValueObject "Invalid AuthResult data passed to the constructor")
  else
    .ok { token := token, final := final, next := next }

/-- JS falsiness of a string (`!token` after `String(token)`). -/
def strIsEmpty (s : String) : Bool := decide (s = "")

/-- Whether an `Except` computation succeeded. -/
def isOk {ε α : Type} : Except ε α → Bool
  | .ok _ => true
  | .error _ => false

/-- Message of the sequencing error thrown for a final previous token. -/
def msgFinalToken : String :=
  "The token passed as previous token was a final token - no subsequent authentication is needed"

/-- Message of the sequencing error thrown for an unknown `from` claim. -/
def msgInvalidStep : String := "The previous authentication step is invalid"

/-- Message of the sequencing error thrown for a mismatched method. -/
def msgInvalidMethod : String := "Invalid authentication method selected"

/-- The body of the `.then` callback in `_verifyPreviousToken`: given the
decoded payload of the previous token (or `null`), resolve the effective
method against the Auth Step Sequence. In JS, when the defaulted
`authSteps[previousMethodIndex + 1]` (resp. `authSteps[0]`) is out of bounds
the local `method` is `undefined` and `authSteps.indexOf(undefined) = -1`,
failing the index checks; the `none` branches of the inner matches carry
exactly that path. -/
def resolveStep (authSteps : List String) (payload? : Option TokenClaims)
    (method : Option String) : Except Err (Option TokenClaims × String) :=
  match payload? with
  | some payload =>
    if payload.final then
      .error (.seq msgFinalToken)
    else
      let previousMethodIndex := jsIndexOf authSteps payload.fromClaim
      if previousMethodIndex < 0 then
        .error (.seq msgInvalidStep)
      else
        let chosen : Option String :=
          if jsFalsyStr method then authSteps.get? (previousMethodIndex.toNat + 1)
          else method
        match chosen with
        | none => .error (.seq msgInvalidMethod)
        | some m =>
          let currentMethodIndex := jsIndexOf authSteps m
          if currentMethodIndex < 0 ∨ currentMethodIndex ≠ previousMethodIndex + 1 then
            .error (.seq msgInvalidMethod)
          else
            .ok (some payload, m)
  | none =>
    let chosen : Option String :=
      if jsFalsyStr method then authSteps.get? 0 else method
    match chosen with
    | none => .error (.seq msgInvalidMethod)
    | some m =>
      if jsIndexOf authSteps m ≠ 0 then
        .error (.seq msgInvalidMethod)
      else
        .ok (none, m)

/-- `TokenManager._verifyPreviousToken`: verify the previous token when
present (signature, algorithm, subject and expiry, delegated to the signing
primitive), then resolve the effective method. -/
def verifyPreviousToken (tm : TokenManager) (now : Nat)
    (previousToken : Option SignedToken) (subjectID : String)
    (method : Option String) : Except Err (Option TokenClaims × String) :=
  match previousToken with
  | some t =>
    match JWT.verify t tm.tokenParameters.key subjectID now with
    | .error e => .error e
    | .ok payload => resolveStep tm.authSteps (some payload) method
  | none => resolveStep tm.authSteps none method

/-- `TokenManager._getTokenForSecret`: look up the backend for the method,
authenticate, and on success mint the new continuation token. A missing
backend is the JS `TypeError` from reading `authenticate` off `undefined`. -/
def getTokenForSecret (tm : TokenManager) (now : Nat)
    (subjectID secret method : String) (final : Bool) :
    Except Err SignedToken :=
  match tm.authBackends method with
  | none => .error (.typeError "Cannot read property authenticate of undefined")
  | some backend =>
    match backend.authenticate subjectID secret with
    | .error e => .error e
    | .ok _ => .ok (JWT.sign method final tm.tokenParameters.key subjectID now)

/-- `TokenManager.getToken`: resolve the method, determine finality, delegate
to the backend, and wrap the minted token in an `AuthResult`. A serialized
JWT string is never empty, so the token-emptiness test is constantly false at
this type; `authSteps[currentMethodIndex + 1]` is in bounds whenever the
result is not final (the `getD` default models JS `undefined` and is never
reached). -/
def getToken (tm : TokenManager) (now : Nat)
    (previousToken : Option SignedToken) (subjectID secret : String)
    (method : Option String) : Except Err (AuthResult SignedToken) :=
  match verifyPreviousToken tm now previousToken subjectID method with
  | .error e => .error e
  | .ok verificationResult =>
    let currentMethodIndex := jsIndexOf tm.authSteps verificationResult.2
    let currentMethodIsFinal : Bool :=
      decide (currentMethodIndex = (tm.authSteps.length : Int) - 1)
    match getTokenForSecret tm now subjectID secret verificationResult.2
        currentMethodIsFinal with
    | .error e => .error e
    | .ok token =>
      AuthResult.construct (fun _ => false) token currentMethodIsFinal
        (if currentMethodIsFinal then none
         else some [(tm.authSteps.get? (currentMethodIndex.toNat + 1)).getD "undefined"])

/-- `TokenManager.requestChallenge`: resolve the method exactly as in
`getToken`, then call the backend's `requestChallenge` verbatim. A missing
backend, or a backend without the capability, is the JS `TypeError` from the
attempted call. -/
def requestChallenge (tm : TokenManager) (now : Nat) (subjectID : String)
    (previousToken : Option SignedToken) (method : Option String) :
    Except Err AuthChallenge :=
  match verifyPreviousToken tm now previousToken subjectID method with
  | .error e => .error e
  | .ok verificationResult =>
    match tm.authBackends verificationResult.2 with
    | none => .error (.typeError "Cannot read property requestChallenge of undefined")
    | some backend =>
      match backend.requestChallenge with
      | none => .error (.typeError "backend.requestChallenge is not a function")
      | some rc => rc subjectID

/-! ## Lemmas about `jsIndexOf` -/

theorem jsIndexOf_nil (s : String) : jsIndexOf [] s = -1 := rfl

theorem jsIndexOf_cons (a : String) (rest : List String) (s : String) :
    jsIndexOf (a :: rest) s =
      if a = s then 0
      else if jsIndexOf rest s < 0 then -1 else jsIndexOf rest s + 1 := rfl

theorem jsIndexOf_neg_one_or_nonneg (l : List String) (s : String) :
    jsIndexOf l s = -1 ∨ 0 ≤ jsIndexOf l s := by
  induction l with
  | nil => left; rfl
  | cons a rest ih =>
    rw [jsIndexOf_cons]
    by_cases h : a = s
    · right; simp [h]
    · rw [if_neg h]
      rcases ih with h1 | h1
      · left; rw [if_pos (by omega)]
      · right; rw [if_neg (by omega)]; omega

theorem jsIndexOf_lt_length (l : List String) (s : String) :
    jsIndexOf l s < (l.length : Int) := by
  induction l with
  | nil => simp [jsIndexOf_nil]
  | cons a rest ih =>
    rw [jsIndexOf_cons]
    by_cases h : a = s
    · rw [if_pos h]
      simp only [List.length_cons]
      omega
    · rw [if_neg h]
      by_cases h2 : jsIndexOf rest s < 0
      · rw [if_pos h2]
        simp only [List.length_cons]
        omega
      · rw [if_neg h2]
        simp only [List.length_cons]
        push_cast
        omega

theorem jsIndexOf_get? (l : List String) (s : String)
    (h : 0 ≤ jsIndexOf l s) : l.get? (jsIndexOf l s).toNat = some s := by
  induction l with
  | nil => simp [jsIndexOf_nil] at h
  | cons a rest ih =>
    rw [jsIndexOf_cons] at h ⊢
    by_cases ha : a = s
    · simp [ha]
    · rw [if_neg ha] at h ⊢
      by_cases h2 : jsIndexOf rest s < 0
      · rw [if_pos h2] at h; omega
      · rw [if_neg h2] at h ⊢
        have h3 : (jsIndexOf rest s + 1).toNat = (jsIndexOf rest s).toNat + 1 := by omega
        rw [h3]
        simpa using ih (by omega)

theorem jsIndexOf_neg_iff (l : List String) (s : String) :
    jsIndexOf l s < 0 ↔ s ∉ l := by
  induction l with
  | nil => simp [jsIndexOf_nil]
  | cons a rest ih =>
    rw [jsIndexOf_cons]
    by_cases ha : a = s
    · simp [ha]
    · rw [if_neg ha]
      by_cases h2 : jsIndexOf rest s < 0
      · rw [if_pos h2]
        simp only [List.mem_cons, not_or]
        constructor
        · intro _
          exact ⟨fun hc => ha hc.symm, ih.mp h2⟩
        · intro _; omega
      · rw [if_neg h2]
        simp only [List.mem_cons, not_or]
        constructor
        · intro hc; omega
        · intro ⟨_, hs⟩
          exact absurd (ih.mpr hs) h2

theorem jsIndexOf_mem (l : List String) (s : String)
    (h : 0 ≤ jsIndexOf l s) : s ∈ l := by
  by_contra hc
  have := (jsIndexOf_neg_iff l s).mpr hc
  omega

theorem jsIndexOf_nodup_get? (l : List String) (s : String) (k : Nat)
    (hnd : l.Nodup) (h : l.get? k = some s) : jsIndexOf l s = (k : Int) := by
  induction l generalizing k with
  | nil => simp at h
  | cons a rest ih =>
    rw [List.nodup_cons] at hnd
    rw [jsIndexOf_cons]
    cases k with
    | zero =>
      simp only [List.get?] at h
      injection h with h
      simp [h]
    | succ k =>
      simp only [List.get?] at h
      have hsmem : s ∈ rest := List.get?_mem h
      have ha : a ≠ s := fun hc => hnd.1 (hc ▸ hsmem)
      rw [if_neg ha]
      have hr := ih k hnd.2 h
      rw [hr, if_neg (by omega)]
      push_cast
      ring

theorem jsIndexOf_eq_zero_iff (l : List String) (s : String) :
    jsIndexOf l s = 0 ↔ l.get? 0 = some s := by
  cases l with
  | nil => simp [jsIndexOf_nil]
  | cons a rest =>
    rw [jsIndexOf_cons]
    by_cases ha : a = s
    · simp [ha]
    · rw [if_neg ha]
      simp only [List.get?]
      constructor
      · intro hc
        by_cases h2 : jsIndexOf rest s < 0
        · rw [if_pos h2] at hc; omega
        · rw [if_neg h2] at hc; omega
      · intro hc
        injection hc with hc
        exact absurd hc ha

/-- Decidable equality of `Except` values, for concrete evaluation. -/
instance {ε α : Type} [DecidableEq ε] [DecidableEq α] :
    DecidableEq (Except ε α) := fun x y =>
  match x, y with
  | .error a, .error b =>
    if h : a = b then .isTrue (by rw [h])
    else .isFalse (by intro hc; injection hc; contradiction)
  | .ok a, .ok b =>
    if h : a = b then .isTrue (by rw [h])
    else .isFalse (by intro hc; injection hc; contradiction)
  | .error _, .ok _ => .isFalse (by intro hc; exact Except.noConfusion hc)
  | .ok _, .error _ => .isFalse (by intro hc; exact Except.noConfusion hc)

/-! ## Propagation of resolution failures -/

theorem getToken_of_resolution_error (tm : TokenManager) (now : Nat)
    (previousToken : Option SignedToken) (subjectID secret : String)
    (method : Option String) (e : Err)
    (h : verifyPreviousToken tm now previousToken subjectID method = .error e) :
    getToken tm now previousToken subjectID secret method = .error e := by
  unfold getToken
  rw [h]

theorem requestChallenge_of_resolution_error (tm : TokenManager) (now : Nat)
    (previousToken : Option SignedToken) (subjectID : String)
    (method : Option String) (e : Err)
    (h : verifyPreviousToken tm now previousToken subjectID method = .error e) :
    requestChallenge tm now subjectID previousToken method = .error e := by
  unfold requestChallenge
  rw [h]

theorem verifyPreviousToken_of_final (tm : TokenManager) (now : Nat)
    (t : SignedToken) (subjectID : String) (payload : TokenClaims)
    (method : Option String)
    (hv : JWT.verify t tm.tokenParameters.key subjectID now = .ok payload)
    (hf : payload.final = true) :
    verifyPreviousToken tm now (some t) subjectID method =
      .error (.seq msgFinalToken) := by
  simp only [verifyPreviousToken]
  rw [hv]
  dsimp only [resolveStep]
  rw [if_pos hf]

/-! ## Concrete fixtures used by counterexamples and witnesses -/

/-- A backend that accepts every secret and has no challenge capability. -/
def okBackend : Backend :=
  { authenticate := fun _ _ => .ok ()
    requestChallenge := none }

/-- A backend that rejects every secret. -/
def rejectingBackend : Backend :=
  { authenticate := fun _ _ => .error (.authenticationFailed "bad secret")
    requestChallenge := none }

/-- Single-step orchestrator with one method named `password`. -/
def tmOne : TokenManager :=
  { authBackends := fun m => if m = "password" then some okBackend else none
    authSteps := ["password"]
    tokenParameters := { key := "k" } }

/-- Two-step orchestrator with methods `password` then `date`. -/
def tmTwo : TokenManager :=
  { authBackends := fun m =>
      if m = "password" ∨ m = "date" then some okBackend else none
    authSteps := ["password", "date"]
    tokenParameters := { key := "k" } }

/-! ## C4: the AuthResult constructor invariant -/

/-- C4 counterexample: the claim says `final = true` with non-null `next`
violates the invariant and makes construction fail, but the constructor's
check `!token || (!final && ...)` never fires when `final` is true, so
`new AuthResult({token: 't', final: true, next: ['x']})` succeeds. -/
theorem authResult_construct_final_with_next_succeeds :
    isOk (AuthResult.construct strIsEmpty "t" true (some ["x"])) = true := by
  decide

/-- C4 (amended): construction succeeds exactly when `token` is non-empty and
either `final = true` (any `next`, including non-null, is accepted) or `next`
is a non-empty list; only the direction `final = false ⇒ next non-empty` of
the claimed invariant is enforced. -/
theorem authResult_construct_ok_iff (token : String) (final : Bool)
    (next : Option (List String)) :
    isOk (AuthResult.construct strIsEmpty token final next) = true ↔
      (token ≠ "" ∧ (final = true ∨ ∃ l, next = some l ∧ l ≠ [])) := by
  by_cases htok : token = ""
  · simp [AuthResult.construct, strIsEmpty, isOk, htok]
  · cases final with
    | true => simp [AuthResult.construct, strIsEmpty, isOk, htok]
    | false =>
      rcases next with _ | l
      · simp [AuthResult.construct, strIsEmpty, isOk, htok]
      · rcases l with _ | ⟨m, rest⟩
        · simp [AuthResult.construct, strIsEmpty, isOk, htok]
        · simp only [AuthResult.construct, strIsEmpty, isOk, htok]
          simp only [decide_eq_true_eq]
          rw [if_neg (by simp [htok])]
          simp [htok]

/-! ## C2: final tokens grant no further step -/

/-- C2: any previous token that verifies and decodes with `final = true`
makes resolution fail with the final-token sequencing error, so both
`getToken` and `requestChallenge` fail, regardless of the requested method
and secret. -/
theorem final_token_always_fails (tm : TokenManager) (now : Nat)
    (t : SignedToken) (subjectID : String) (payload : TokenClaims)
    (method : Option String) (secret : String)
    (hv : JWT.verify t tm.tokenParameters.key subjectID now = .ok payload)
    (hf : payload.final = true) :
    verifyPreviousToken tm now (some t) subjectID method =
      .error (.seq msgFinalToken) ∧
    getToken tm now (some t) subjectID secret method =
      .error (.seq msgFinalToken) ∧
    requestChallenge tm now subjectID (some t) method =
      .error (.seq msgFinalToken) := by
  have h1 := verifyPreviousToken_of_final tm now t subjectID payload method hv hf
  exact ⟨h1,
    getToken_of_resolution_error tm now (some t) subjectID secret method _ h1,
    requestChallenge_of_resolution_error tm now (some t) subjectID method _ h1⟩

/-- Final token over the single-step configuration, as minted by it. -/
def finalTokenOne : SignedToken :=
  JWT.sign "password" true "k" "user1" 0

/-- C2 witness: the hypotheses of `final_token_always_fails` hold for a
concrete final token, and the concrete calls fail as stated. -/
theorem final_token_always_fails_witness :
    JWT.verify finalTokenOne tmOne.tokenParameters.key "user1" 0 =
      .ok finalTokenOne.claims ∧
    finalTokenOne.claims.final = true ∧
    getToken tmOne 0 (some finalTokenOne) "user1" "s" none =
      .error (.seq msgFinalToken) :=
  ⟨by decide, by decide,
    (final_token_always_fails tmOne 0 finalTokenOne "user1" finalTokenOne.claims
      none "s" (by decide) (by decide)).2.1⟩

/-! ## C5: first-step resolution without a previous token -/

/-- C5 counterexample: the claim says any explicit `method` differing from
the first configured step fails, but an explicitly supplied empty-string
method is falsy under the JS guard `if (!method)`, is silently replaced by
the first step, and the call succeeds. -/
theorem first_step_empty_method_succeeds :
    isOk (getToken tmOne 0 none "user1" "secret" (some "")) = true ∧
    tmOne.authSteps.get? 0 = some "password" ∧ ("" : String) ≠ "password" := by
  decide

/-- C5 (amended): with no `previousToken`, the resolved method defaults to
the first entry of the Auth Step Sequence when `method` is unspecified, and
an explicit non-empty `method` other than the first entry fails with the
sequencing error; an explicitly supplied empty string is treated as
unspecified. -/
theorem first_step_sequencing (tm : TokenManager) (now : Nat)
    (subjectID secret : String) (m : String)
    (hm : m ≠ "") (hfirst : tm.authSteps.get? 0 ≠ some m) :
    (verifyPreviousToken tm now none subjectID (some m) =
        .error (.seq msgInvalidMethod) ∧
      getToken tm now none subjectID secret (some m) =
        .error (.seq msgInvalidMethod) ∧
      requestChallenge tm now subjectID none (some m) =
        .error (.seq msgInvalidMethod)) ∧
    (∀ p2 m2, verifyPreviousToken tm now none subjectID none = .ok (p2, m2) →
      tm.authSteps.get? 0 = some m2) := by
  have hfalsy : jsFalsyStr (some m) = false := by simp [jsFalsyStr, hm]
  have hidx : jsIndexOf tm.authSteps m ≠ 0 :=
    fun hc => hfirst ((jsIndexOf_eq_zero_iff _ _).mp hc)
  have h1 : verifyPreviousToken tm now none subjectID (some m) =
      .error (.seq msgInvalidMethod) := by
    simp only [verifyPreviousToken]
    dsimp only [resolveStep]
    rw [hfalsy]
    simp only [Bool.false_eq_true, if_false]
    rw [if_pos hidx]
  refine ⟨⟨h1,
    getToken_of_resolution_error tm now none subjectID secret (some m) _ h1,
    requestChallenge_of_resolution_error tm now none subjectID (some m) _ h1⟩, ?_⟩
  intro p2 m2 hok
  simp only [verifyPreviousToken] at hok
  dsimp only [resolveStep, jsFalsyStr] at hok
  simp only [if_pos] at hok
  split at hok
  · exact absurd hok (by simp)
  · rename_i m0 hm0
    split at hok
    · exact absurd hok (by simp)
    · injection hok with hok
      rw [hm0]
      rw [Prod.mk.injEq] at hok
      rw [hok.2]

/-- C5 witness: the hypotheses of `first_step_sequencing` hold for the
concrete method `x` over the single-step configuration, and the call fails
as stated. -/
theorem first_step_sequencing_witness :
    ("x" : String) ≠ "" ∧ tmOne.authSteps.get? 0 ≠ some "x" ∧
    getToken tmOne 0 none "user1" "s" (some "x") =
      .error (.seq msgInvalidMethod) :=
  ⟨by decide, by decide,
    (first_step_sequencing tmOne 0 "user1" "s" "x"
      (by decide) (by decide)).1.2.1⟩

/-! ## C1: sequencing of intermediate tokens -/

/-- Orchestrator whose step sequence contains an empty-string method name. -/
def tmGap : TokenManager :=
  { authBackends := fun m => if m = "c" then some okBackend else none
    authSteps := ["a", "", "c"]
    tokenParameters := { key := "k" } }

/-- Intermediate token recording the empty-string step, minted under
`tmGap`'s key for subject `user1`. -/
def emptyStepToken : SignedToken := JWT.sign "" false "k" "user1" 0

/-- C1 counterexample: a verified non-final previous token whose `from`
claim sits at index 1, supplied together with the explicit method `""`
whose index 1 is a repeat (not `1 + 1`), must fail according to the claim;
but the JS guard `if (!method)` treats the explicit empty string as
unspecified, defaults the method to the entry at index 2, and the call
succeeds. -/
theorem intermediate_token_empty_method_succeeds :
    JWT.verify emptyStepToken tmGap.tokenParameters.key "user1" 0 =
      .ok emptyStepToken.claims ∧
    emptyStepToken.claims.final = false ∧
    jsIndexOf tmGap.authSteps emptyStepToken.claims.fromClaim = 1 ∧
    jsIndexOf tmGap.authSteps "" ≠ 1 + 1 ∧
    isOk (getToken tmGap 0 (some emptyStepToken) "user1" "s" (some "")) =
      true := by
  decide

/-- C1 (amended): for a verified non-final previous token whose `from`
claim sits at index `i`, an explicit non-empty `method` whose index is not
exactly `i + 1` fails with the sequencing error (skip forward, skip
backward, repeat), and when `method` is unspecified it defaults to the
entry at index `i + 1`; an explicitly supplied empty string is treated as
unspecified. -/
theorem intermediate_token_sequencing (tm : TokenManager) (now : Nat)
    (t : SignedToken) (subjectID secret : String) (payload : TokenClaims)
    (i : Nat) (m : String)
    (hv : JWT.verify t tm.tokenParameters.key subjectID now = .ok payload)
    (hf : payload.final = false)
    (hi : jsIndexOf tm.authSteps payload.fromClaim = (i : Int))
    (hm : m ≠ "")
    (hne : jsIndexOf tm.authSteps m ≠ (i : Int) + 1) :
    (verifyPreviousToken tm now (some t) subjectID (some m) =
        .error (.seq msgInvalidMethod) ∧
      getToken tm now (some t) subjectID secret (some m) =
        .error (.seq msgInvalidMethod) ∧
      requestChallenge tm now subjectID (some t) (some m) =
        .error (.seq msgInvalidMethod)) ∧
    (∀ p2 m2,
      verifyPreviousToken tm now (some t) subjectID none = .ok (p2, m2) →
      tm.authSteps.get? (i + 1) = some m2) := by
  have hfalsy : jsFalsyStr (some m) = false := by simp [jsFalsyStr, hm]
  have h1 : verifyPreviousToken tm now (some t) subjectID (some m) =
      .error (.seq msgInvalidMethod) := by
    simp only [verifyPreviousToken]
    rw [hv]
    dsimp only [resolveStep]
    rw [if_neg (by rw [hf]; simp)]
    rw [hi, if_neg (by omega), hfalsy]
    simp only [Bool.false_eq_true, if_false]
    rw [if_pos (Or.inr hne)]
  refine ⟨⟨h1,
    getToken_of_resolution_error tm now (some t) subjectID secret (some m) _ h1,
    requestChallenge_of_resolution_error tm now (some t) subjectID (some m) _ h1⟩,
    ?_⟩
  intro p2 m2 hok
  simp only [verifyPreviousToken] at hok
  rw [hv] at hok
  dsimp only [resolveStep] at hok
  rw [if_neg (by rw [hf]; simp)] at hok
  rw [hi, if_neg (by omega)] at hok
  have htoNat : ((i : Int)).toNat = i := Int.toNat_ofNat i
  rw [htoNat] at hok
  dsimp only [jsFalsyStr] at hok
  simp only [if_pos] at hok
  split at hok
  · exact absurd hok (by simp)
  · rename_i m0 hm0
    split at hok
    · exact absurd hok (by simp)
    · injection hok with hok
      rw [hm0]
      rw [Prod.mk.injEq] at hok
      rw [hok.2]

/-- Intermediate token recording the `password` step of `tmTwo`. -/
def pwToken : SignedToken := JWT.sign "password" false "k" "user1" 0

/-- C1 witness: the hypotheses of `intermediate_token_sequencing` hold for a
concrete repeat of the `password` step over the two-step configuration, and
the call fails as stated. -/
theorem intermediate_token_sequencing_witness :
    JWT.verify pwToken tmTwo.tokenParameters.key "user1" 0 =
      .ok pwToken.claims ∧
    pwToken.claims.final = false ∧
    jsIndexOf tmTwo.authSteps pwToken.claims.fromClaim = ((0 : Nat) : Int) ∧
    ("password" : String) ≠ "" ∧
    jsIndexOf tmTwo.authSteps "password" ≠ ((0 : Nat) : Int) + 1 ∧
    getToken tmTwo 0 (some pwToken) "user1" "s" (some "password") =
      .error (.seq msgInvalidMethod) :=
  ⟨by decide, by decide, by decide, by decide, by decide,
    (intermediate_token_sequencing tmTwo 0 pwToken "user1" "s" pwToken.claims
      0 "password" (by decide) (by decide) (by decide) (by decide)
      (by decide)).1.2.1⟩

/-! ## C9: a last-step token with no explicit method grants nothing -/

/-- C9: for a verified non-final previous token whose `from` claim is the
last entry of the (duplicate-free) Auth Step Sequence and with `method`
unspecified, the defaulted successor `authSteps[i + 1]` is out of bounds
(JS `undefined`), its index is `-1`, and resolution — hence `getToken` and
`requestChallenge` — fails with the sequencing error. -/
theorem last_step_token_default_fails (tm : TokenManager) (now : Nat)
    (t : SignedToken) (subjectID secret : String) (payload : TokenClaims)
    (hnd : tm.authSteps.Nodup)
    (hv : JWT.verify t tm.tokenParameters.key subjectID now = .ok payload)
    (hf : payload.final = false)
    (hl : tm.authSteps.getLast? = some payload.fromClaim) :
    verifyPreviousToken tm now (some t) subjectID none =
      .error (.seq msgInvalidMethod) ∧
    getToken tm now (some t) subjectID secret none =
      .error (.seq msgInvalidMethod) ∧
    requestChallenge tm now subjectID (some t) none =
      .error (.seq msgInvalidMethod) := by
  have hne : tm.authSteps ≠ [] := by
    intro hc
    rw [hc] at hl
    simp at hl
  have hlen : 1 ≤ tm.authSteps.length := by
    cases hsteps : tm.authSteps with
    | nil => exact absurd hsteps hne
    | cons a rest => simp [hsteps]
  have hget : tm.authSteps.get? (tm.authSteps.length - 1) =
      some payload.fromClaim := by
    rw [List.get?_eq_getElem?, ← List.getLast?_eq_getElem?]
    exact hl
  have hi : jsIndexOf tm.authSteps payload.fromClaim =
      ((tm.authSteps.length - 1 : Nat) : Int) :=
    jsIndexOf_nodup_get? _ _ _ hnd hget
  have hnone : tm.authSteps.get? (tm.authSteps.length - 1 + 1) = none := by
    rw [List.get?_eq_none]
    omega
  have h1 : verifyPreviousToken tm now (some t) subjectID none =
      .error (.seq msgInvalidMethod) := by
    simp only [verifyPreviousToken]
    rw [hv]
    dsimp only [resolveStep]
    rw [if_neg (by rw [hf]; simp)]
    rw [hi, if_neg (by omega)]
    have htoNat : (((tm.authSteps.length - 1 : Nat) : Int)).toNat =
        tm.authSteps.length - 1 := Int.toNat_ofNat _
    rw [htoNat]
    dsimp only [jsFalsyStr]
    simp only [if_pos]
    rw [hnone]
  exact ⟨h1,
    getToken_of_resolution_error tm now (some t) subjectID secret none _ h1,
    requestChallenge_of_resolution_error tm now (some t) subjectID none _ h1⟩

/-- Intermediate (non-final) token recording the `date` step, the last entry
of `tmTwo`'s sequence. -/
def dateToken : SignedToken := JWT.sign "date" false "k" "user1" 0

/-- C9 witness: the hypotheses of `last_step_token_default_fails` hold for a
concrete non-final token at the last step of the two-step configuration, and
the call fails as stated. -/
theorem last_step_token_default_fails_witness :
    tmTwo.authSteps.Nodup ∧
    JWT.verify dateToken tmTwo.tokenParameters.key "user1" 0 =
      .ok dateToken.claims ∧
    dateToken.claims.final = false ∧
    tmTwo.authSteps.getLast? = some dateToken.claims.fromClaim ∧
    getToken tmTwo 0 (some dateToken) "user1" "s" none =
      .error (.seq msgInvalidMethod) :=
  ⟨by decide, by decide, by decide, by decide,
    (last_step_token_default_fails tmTwo 0 dateToken "user1" "s"
      dateToken.claims (by decide) (by decide) (by decide) (by decide)).2.1⟩

/-! ## C6: mint/decode round-trip -/

/-- Inversion of a successful `AuthResult` construction: when the token is
non-empty and the final/next combination is the one the orchestrator builds,
the result is exactly the record of the arguments. -/
theorem construct_ok_elim {τ : Type} (isE : τ → Bool) (token : τ) (fin : Bool)
    (next : Option (List String)) (r : AuthResult τ)
    (hE : isE token = false)
    (hne : fin = true ∨ ∃ y l, next = some (y :: l))
    (h : AuthResult.construct isE token fin next = .ok r) :
    r = { token := token, final := fin, next := next } := by
  unfold AuthResult.construct at h
  rw [if_neg ?_] at h
  · injection h with h
    exact h.symm
  · rintro (hc | ⟨hfin, hc⟩)
    · rw [hE] at hc
      exact Bool.false_ne_true hc
    · rcases hne with hfin2 | ⟨y, l, hnx⟩
      · rw [hfin2] at hfin
        exact absurd hfin (by simp)
      · rw [hnx] at hc
        rcases hc with hc | hc <;> simp at hc

/-- C6: on a successful `getToken` call resolving method `m'` with finality
`r.final`, the returned token is exactly the token minted for `{subject:
subjectID, from: m', final: r.final}` with the configured expiry, and
decoding it under the same key and subject yields those claims back. -/
theorem mint_decode_roundtrip (tm : TokenManager) (now : Nat)
    (previousToken : Option SignedToken) (subjectID secret : String)
    (method : Option String) (p? : Option TokenClaims) (m' : String)
    (r : AuthResult SignedToken)
    (hv : verifyPreviousToken tm now previousToken subjectID method =
      .ok (p?, m'))
    (hg : getToken tm now previousToken subjectID secret method = .ok r) :
    r.token = JWT.sign m' r.final tm.tokenParameters.key subjectID now ∧
    JWT.verify r.token tm.tokenParameters.key subjectID now =
      .ok { subject := subjectID, fromClaim := m', final := r.final
            exp := now + eightHours } := by
  unfold getToken at hg
  rw [hv] at hg
  dsimp only at hg
  split at hg
  · exact absurd hg (by simp)
  · rename_i token heq
    unfold getTokenForSecret at heq
    split at heq
    · exact absurd heq (by simp)
    · rename_i backend hb
      split at heq
      · exact absurd heq (by simp)
      · injection heq with heq
        have hr := construct_ok_elim (fun _ => false) token _ _ r rfl ?_ hg
        · subst hr
          dsimp only
          refine ⟨heq.symm, ?_⟩
          rw [← heq]
          unfold JWT.sign JWT.verify
          dsimp only
          rw [if_pos ⟨rfl, rfl, rfl, by unfold eightHours; omega⟩]
        · by_cases hF : decide (jsIndexOf tm.authSteps m' =
              (tm.authSteps.length : Int) - 1) = true
          · exact Or.inl hF
          · right
            refine ⟨(tm.authSteps.get?
              ((jsIndexOf tm.authSteps m').toNat + 1)).getD "undefined", [], ?_⟩
            rw [if_neg hF]

/-- C6 witness: the hypotheses of `mint_decode_roundtrip` hold for the
single-step configuration, and the concrete minted token round-trips. -/
theorem mint_decode_roundtrip_witness :
    verifyPreviousToken tmOne 0 none "user1" none = .ok (none, "password") ∧
    getToken tmOne 0 none "user1" "s" none =
      .ok { token := JWT.sign "password" true "k" "user1" 0
            final := true, next := none } ∧
    JWT.verify (JWT.sign "password" true "k" "user1" 0)
        tmOne.tokenParameters.key "user1" 0 =
      .ok { subject := "user1", fromClaim := "password", final := true
            exp := 0 + eightHours } :=
  ⟨by decide, by decide,
    (mint_decode_roundtrip tmOne 0 none "user1" "s" none none "password"
      { token := JWT.sign "password" true "k" "user1" 0
        final := true, next := none }
      (by decide) (by decide)).2⟩

/-! ## C7: backend failures propagate unchanged, nothing is minted -/

/-- C7: when the backend for the resolved method rejects the secret, the
`getToken` call fails with exactly that backend error; the match never
reaches the signing step, so no token is minted. -/
theorem backend_failure_propagates (tm : TokenManager) (now : Nat)
    (previousToken : Option SignedToken) (subjectID secret : String)
    (method : Option String) (p? : Option TokenClaims) (m' : String)
    (b : Backend) (e : Err)
    (hv : verifyPreviousToken tm now previousToken subjectID method =
      .ok (p?, m'))
    (hb : tm.authBackends m' = some b)
    (ha : b.authenticate subjectID secret = .error e) :
    getToken tm now previousToken subjectID secret method = .error e := by
  unfold getToken
  rw [hv]
  dsimp only
  unfold getTokenForSecret
  rw [hb]
  dsimp only
  rw [ha]

/-- Single-step orchestrator whose backend rejects every secret. -/
def tmReject : TokenManager :=
  { authBackends := fun m => if m = "password" then some rejectingBackend else none
    authSteps := ["password"]
    tokenParameters := { key := "k" } }

/-- C7 witness: the hypotheses of `backend_failure_propagates` hold for the
rejecting single-step configuration, and the concrete call surfaces the
backend's own error. -/
theorem backend_failure_propagates_witness :
    verifyPreviousToken tmReject 0 none "user1" none = .ok (none, "password") ∧
    tmReject.authBackends "password" = some rejectingBackend ∧
    rejectingBackend.authenticate "user1" "s" =
      .error (.authenticationFailed "bad secret") ∧
    getToken tmReject 0 none "user1" "s" none =
      .error (.authenticationFailed "bad secret") :=
  ⟨by decide, by rfl, by rfl,
    backend_failure_propagates tmReject 0 none "user1" "s" none none "password"
      rejectingBackend (.authenticationFailed "bad secret")
      (by decide) (by rfl) (by rfl)⟩

/-! ## C10: challenge request against a non-capable backend -/

/-- C10: when the backend mapped to the resolved method does not implement
`requestChallenge`, the call fails with the `TypeError` of invoking the
missing capability rather than succeeding silently or returning a null
challenge. -/
theorem requestChallenge_no_capability (tm : TokenManager) (now : Nat)
    (previousToken : Option SignedToken) (subjectID : String)
    (method : Option String) (p? : Option TokenClaims) (m' : String)
    (b : Backend)
    (hv : verifyPreviousToken tm now previousToken subjectID method =
      .ok (p?, m'))
    (hb : tm.authBackends m' = some b)
    (hrc : b.requestChallenge = none) :
    requestChallenge tm now subjectID previousToken method =
      .error (.typeError "backend.requestChallenge is not a function") := by
  unfold requestChallenge
  rw [hv]
  dsimp only
  rw [hb]
  dsimp only
  rw [hrc]

/-- C10 witness: the hypotheses of `requestChallenge_no_capability` hold for
the single-step configuration (whose backend has no challenge capability),
and the concrete call fails. -/
theorem requestChallenge_no_capability_witness :
    verifyPreviousToken tmOne 0 none "user1" none = .ok (none, "password") ∧
    tmOne.authBackends "password" = some okBackend ∧
    okBackend.requestChallenge = none ∧
    requestChallenge tmOne 0 "user1" none none =
      .error (.typeError "backend.requestChallenge is not a function") :=
  ⟨by decide, by rfl, by rfl,
    requestChallenge_no_capability tmOne 0 none "user1" none none "password"
      okBackend (by decide) (by rfl) (by rfl)⟩

/-! ## C8: resolution strictly precedes any backend operation

To make "no backend is invoked" observable in a pure embedding, the two
operations are restated with an event trace recording every backend call;
`getTokenTr`/`requestChallengeTr` are the same functions as
`getToken`/`requestChallenge` (proved below), with the trace threaded
through. -/

/-- An observable invocation of a backend operation. -/
inductive BackendEvent where
  | authenticateCall (method subjectID secret : String)
  | requestChallengeCall (method subjectID : String)
deriving DecidableEq, Repr

/-- `getToken` instrumented with the list of backend invocations it makes. -/
def getTokenTr (tm : TokenManager) (now : Nat)
    (previousToken : Option SignedToken) (subjectID secret : String)
    (method : Option String) :
    Except Err (AuthResult SignedToken) × List BackendEvent :=
  match verifyPreviousToken tm now previousToken subjectID method with
  | .error e => (.error e, [])
  | .ok verificationResult =>
    let currentMethodIndex := jsIndexOf tm.authSteps verificationResult.2
    let currentMethodIsFinal : Bool :=
      decide (currentMethodIndex = (tm.authSteps.length : Int) - 1)
    match tm.authBackends verificationResult.2 with
    | none =>
      (.error (.typeError "Cannot read property authenticate of undefined"), [])
    | some backend =>
      let ev := BackendEvent.authenticateCall verificationResult.2 subjectID secret
      match backend.authenticate subjectID secret with
      | .error e => (.error e, [ev])
      | .ok _ =>
        let token := JWT.sign verificationResult.2 currentMethodIsFinal
          tm.tokenParameters.key subjectID now
        (AuthResult.construct (fun _ => false) token currentMethodIsFinal
          (if currentMethodIsFinal then none
           else some [(tm.authSteps.get? (currentMethodIndex.toNat + 1)).getD "undefined"]),
         [ev])

/-- `requestChallenge` instrumented with the list of backend invocations. -/
def requestChallengeTr (tm : TokenManager) (now : Nat) (subjectID : String)
    (previousToken : Option SignedToken) (method : Option String) :
    Except Err AuthChallenge × List BackendEvent :=
  match verifyPreviousToken tm now previousToken subjectID method with
  | .error e => (.error e, [])
  | .ok verificationResult =>
    match tm.authBackends verificationResult.2 with
    | none =>
      (.error (.typeError "Cannot read property requestChallenge of undefined"), [])
    | some backend =>
      match backend.requestChallenge with
      | none => (.error (.typeError "backend.requestChallenge is not a function"), [])
      | some rc =>
        (rc subjectID, [BackendEvent.requestChallengeCall verificationResult.2 subjectID])

theorem getTokenTr_fst (tm : TokenManager) (now : Nat)
    (previousToken : Option SignedToken) (subjectID secret : String)
    (method : Option String) :
    (getTokenTr tm now previousToken subjectID secret method).1 =
      getToken tm now previousToken subjectID secret method := by
  unfold getTokenTr getToken getTokenForSecret
  cases hv : verifyPreviousToken tm now previousToken subjectID method with
  | error e => rfl
  | ok vr =>
    dsimp only
    cases hb : tm.authBackends vr.2 with
    | none => rfl
    | some b =>
      dsimp only
      cases ha : b.authenticate subjectID secret with
      | error e => rfl
      | ok u => rfl

theorem requestChallengeTr_fst (tm : TokenManager) (now : Nat)
    (subjectID : String) (previousToken : Option SignedToken)
    (method : Option String) :
    (requestChallengeTr tm now subjectID previousToken method).1 =
      requestChallenge tm now subjectID previousToken method := by
  unfold requestChallengeTr requestChallenge
  cases hv : verifyPreviousToken tm now previousToken subjectID method with
  | error e => rfl
  | ok vr =>
    dsimp only
    cases hb : tm.authBackends vr.2 with
    | none => rfl
    | some b =>
      dsimp only
      cases hrc : b.requestChallenge with
      | none => rfl
      | some rc => rfl

/-- C8: the instrumented operations agree with `getToken` and
`requestChallenge` on their result, and whenever method resolution fails the
whole call fails with the resolution error and the backend-invocation trace
is empty — resolution completes, and fails if applicable, strictly before
any backend operation is invoked. -/
theorem resolution_before_backend (tm : TokenManager) (now : Nat)
    (previousToken : Option SignedToken) (subjectID secret : String)
    (method : Option String) :
    ((getTokenTr tm now previousToken subjectID secret method).1 =
      getToken tm now previousToken subjectID secret method) ∧
    ((requestChallengeTr tm now subjectID previousToken method).1 =
      requestChallenge tm now subjectID previousToken method) ∧
    (∀ e, verifyPreviousToken tm now previousToken subjectID method = .error e →
      getTokenTr tm now previousToken subjectID secret method = (.error e, []) ∧
      requestChallengeTr tm now subjectID previousToken method = (.error e, [])) := by
  refine ⟨getTokenTr_fst tm now previousToken subjectID secret method,
    requestChallengeTr_fst tm now subjectID previousToken method, ?_⟩
  intro e he
  constructor
  · unfold getTokenTr
    rw [he]
  · unfold requestChallengeTr
    rw [he]

/-- C8 witness: a concrete call whose resolution fails produces the
resolution error with an empty backend trace. -/
theorem resolution_before_backend_witness :
    verifyPreviousToken tmOne 0 none "user1" (some "x") =
      .error (.seq msgInvalidMethod) ∧
    getTokenTr tmOne 0 none "user1" "s" (some "x") =
      (.error (.seq msgInvalidMethod), []) ∧
    requestChallengeTr tmOne 0 "user1" none (some "x") =
      (.error (.seq msgInvalidMethod), []) :=
  ⟨by decide,
    ((resolution_before_backend tmOne 0 none "user1" "s" (some "x")).2.2
      (.seq msgInvalidMethod) (by decide)).1,
    ((resolution_before_backend tmOne 0 none "user1" "s" (some "x")).2.2
      (.seq msgInvalidMethod) (by decide)).2⟩

/-! ## C3: finality, next step, and the N-step chain -/

/-- Decoding a freshly minted token under the same key, subject and instant
recovers its claims. -/
theorem verify_sign (f : String) (fl : Bool) (key subj : String) (now : Nat) :
    JWT.verify (JWT.sign f fl key subj now) key subj now =
      .ok { subject := subj, fromClaim := f, final := fl
            exp := now + eightHours } := by
  unfold JWT.sign JWT.verify
  dsimp only
  rw [if_pos ⟨rfl, rfl, rfl, by unfold eightHours; omega⟩]

/-- A successful resolution always selects a method present in the Auth Step
Sequence (its JS index is non-negative). -/
theorem resolveStep_ok_nonneg (authSteps : List String)
    (payload? : Option TokenClaims) (method : Option String)
    (q : Option TokenClaims) (m' : String)
    (h : resolveStep authSteps payload? method = .ok (q, m')) :
    0 ≤ jsIndexOf authSteps m' := by
  cases payload? with
  | some payload =>
    dsimp only [resolveStep] at h
    split at h
    · exact absurd h (by simp)
    · split at h
      · exact absurd h (by simp)
      · split at h
        · exact absurd h (by simp)
        · rename_i m0 hm0
          split at h
          · exact absurd h (by simp)
          · rename_i hcond
            injection h with h
            rw [Prod.mk.injEq] at h
            rw [← h.2]
            omega
  | none =>
    dsimp only [resolveStep] at h
    split at h
    · exact absurd h (by simp)
    · rename_i m0 hm0
      split at h
      · exact absurd h (by simp)
      · rename_i hcond
        injection h with h
        rw [Prod.mk.injEq] at h
        rw [← h.2]
        omega

theorem verifyPreviousToken_ok_nonneg (tm : TokenManager) (now : Nat)
    (previousToken : Option SignedToken) (subjectID : String)
    (method : Option String) (q : Option TokenClaims) (m' : String)
    (h : verifyPreviousToken tm now previousToken subjectID method =
      .ok (q, m')) :
    0 ≤ jsIndexOf tm.authSteps m' := by
  cases previousToken with
  | none =>
    dsimp only [verifyPreviousToken] at h
    exact resolveStep_ok_nonneg _ _ _ _ _ h
  | some t =>
    dsimp only [verifyPreviousToken] at h
    split at h
    · exact absurd h (by simp)
    · exact resolveStep_ok_nonneg _ _ _ _ _ h

/-- With no previous token and no explicit method, resolution selects the
first entry of the sequence. -/
theorem resolve_first_step (tm : TokenManager) (now : Nat) (subjectID : String)
    (h0 : 0 < tm.authSteps.length) :
    verifyPreviousToken tm now none subjectID none =
      .ok (none, tm.authSteps.get ⟨0, h0⟩) := by
  have hg0 : tm.authSteps.get? 0 = some (tm.authSteps.get ⟨0, h0⟩) :=
    List.get?_eq_get h0
  have hi0 : jsIndexOf tm.authSteps (tm.authSteps.get ⟨0, h0⟩) = 0 :=
    (jsIndexOf_eq_zero_iff _ _).mpr hg0
  simp only [verifyPreviousToken]
  dsimp only [resolveStep, jsFalsyStr]
  simp only [if_pos]
  rw [hg0]
  dsimp only
  rw [if_neg (by rw [hi0]; exact fun hc => hc rfl)]

/-- Presenting the freshly minted non-final token of step `k` with no
explicit method resolves to step `k + 1`. -/
theorem resolve_next_step (tm : TokenManager) (now : Nat) (subjectID : String)
    (k : Nat) (hnd : tm.authSteps.Nodup) (hk : k < tm.authSteps.length)
    (hk1 : k + 1 < tm.authSteps.length) :
    verifyPreviousToken tm now
      (some (JWT.sign (tm.authSteps.get ⟨k, hk⟩) false
        tm.tokenParameters.key subjectID now))
      subjectID none =
    .ok (some { subject := subjectID
                fromClaim := tm.authSteps.get ⟨k, hk⟩
                final := false
                exp := now + eightHours },
      tm.authSteps.get ⟨k + 1, hk1⟩) := by
  have hik : jsIndexOf tm.authSteps (tm.authSteps.get ⟨k, hk⟩) = (k : Int) :=
    jsIndexOf_nodup_get? _ _ _ hnd (List.get?_eq_get hk)
  have hik1 : jsIndexOf tm.authSteps (tm.authSteps.get ⟨k + 1, hk1⟩) =
      ((k + 1 : Nat) : Int) :=
    jsIndexOf_nodup_get? _ _ _ hnd (List.get?_eq_get hk1)
  simp only [verifyPreviousToken]
  rw [verify_sign]
  dsimp only [resolveStep]
  rw [if_neg (by simp)]
  rw [hik, if_neg (by omega), Int.toNat_ofNat]
  dsimp only [jsFalsyStr]
  simp only [if_pos]
  rw [List.get?_eq_get hk1]
  dsimp only
  rw [hik1, if_neg (by push_cast; omega)]

/-- Shape of a successful `getToken` result: given a successful resolution
and an accepting backend, the call returns the minted token with the
computed finality and successor. -/
theorem getToken_ok_shape (tm : TokenManager) (now : Nat)
    (previousToken : Option SignedToken) (subjectID secret : String)
    (method : Option String) (p? : Option TokenClaims) (m' : String)
    (b : Backend)
    (hv : verifyPreviousToken tm now previousToken subjectID method =
      .ok (p?, m'))
    (hb : tm.authBackends m' = some b)
    (ha : b.authenticate subjectID secret = .ok ()) :
    getToken tm now previousToken subjectID secret method = .ok
      { token := JWT.sign m'
          (decide (jsIndexOf tm.authSteps m' = (tm.authSteps.length : Int) - 1))
          tm.tokenParameters.key subjectID now
        final :=
          decide (jsIndexOf tm.authSteps m' = (tm.authSteps.length : Int) - 1)
        next :=
          if decide (jsIndexOf tm.authSteps m' =
              (tm.authSteps.length : Int) - 1) = true then none
          else some [(tm.authSteps.get?
            ((jsIndexOf tm.authSteps m').toNat + 1)).getD "undefined"] } := by
  unfold getToken
  rw [hv]
  dsimp only
  unfold getTokenForSecret
  rw [hb]
  dsimp only
  rw [ha]
  dsimp only
  unfold AuthResult.construct
  rw [if_neg ?_]
  rintro (hc | ⟨hfin, hc⟩)
  · simp at hc
  · rw [hfin] at hc
    simp at hc

/-- The chained protocol run: call `k + 1` supplies the token of call `k`,
with no explicit method anywhere. -/
def chain (tm : TokenManager) (now : Nat) (subjectID : String)
    (secrets : Nat → String) : Nat → Except Err (AuthResult SignedToken)
  | 0 => getToken tm now none subjectID (secrets 0) none
  | k + 1 =>
    match chain tm now subjectID secrets k with
    | .error e => .error e
    | .ok r => getToken tm now (some r.token) subjectID (secrets (k + 1)) none

/-- Invariant of the chained run over a duplicate-free sequence with
accepting backends: call `k` succeeds and yields the token of step `k`,
final exactly at the last index. -/
theorem chain_ok (tm : TokenManager) (now : Nat) (subjectID : String)
    (secrets : Nat → String)
    (hnd : tm.authSteps.Nodup)
    (hb : ∀ s ∈ tm.authSteps, ∃ b, tm.authBackends s = some b ∧
      ∀ u sec, b.authenticate u sec = .ok ()) :
    ∀ (k : Nat) (hk : k < tm.authSteps.length),
    chain tm now subjectID secrets k = .ok
      { token := JWT.sign (tm.authSteps.get ⟨k, hk⟩)
          (decide ((k : Int) = (tm.authSteps.length : Int) - 1))
          tm.tokenParameters.key subjectID now
        final := decide ((k : Int) = (tm.authSteps.length : Int) - 1)
        next :=
          if decide ((k : Int) = (tm.authSteps.length : Int) - 1) = true
          then none
          else some [(tm.authSteps.get? (k + 1)).getD "undefined"] } := by
  intro k
  induction k with
  | zero =>
    intro hk
    obtain ⟨b, hbsome, hacc⟩ := hb _ (List.get_mem tm.authSteps 0 hk)
    have hs := getToken_ok_shape tm now none subjectID (secrets 0) none none
      (tm.authSteps.get ⟨0, hk⟩) b (resolve_first_step tm now subjectID hk)
      hbsome (hacc subjectID (secrets 0))
    have hidx : jsIndexOf tm.authSteps (tm.authSteps.get ⟨0, hk⟩) =
        ((0 : Nat) : Int) :=
      jsIndexOf_nodup_get? _ _ _ hnd (List.get?_eq_get hk)
    rw [hidx, Int.toNat_ofNat] at hs
    exact hs
  | succ n ih =>
    intro hk
    have hkn : n < tm.authSteps.length := by omega
    have ihn := ih hkn
    have hFn : decide ((n : Int) = (tm.authSteps.length : Int) - 1) = false := by
      rw [decide_eq_false_iff_not]
      omega
    simp only [chain]
    rw [ihn]
    dsimp only
    rw [hFn]
    obtain ⟨b, hbsome, hacc⟩ := hb _ (List.get_mem tm.authSteps (n + 1) hk)
    have hs := getToken_ok_shape tm now
      (some (JWT.sign (tm.authSteps.get ⟨n, hkn⟩) false
        tm.tokenParameters.key subjectID now))
      subjectID (secrets (n + 1)) none
      (some { subject := subjectID
              fromClaim := tm.authSteps.get ⟨n, hkn⟩
              final := false
              exp := now + eightHours })
      (tm.authSteps.get ⟨n + 1, hk⟩) b
      (resolve_next_step tm now subjectID n hnd hkn hk)
      hbsome (hacc subjectID (secrets (n + 1)))
    have hidx : jsIndexOf tm.authSteps (tm.authSteps.get ⟨n + 1, hk⟩) =
        ((n + 1 : Nat) : Int) :=
      jsIndexOf_nodup_get? _ _ _ hnd (List.get?_eq_get hk)
    rw [hidx, Int.toNat_ofNat] at hs
    exact hs

/-- Inversion of a successful `getToken`: the result's `final` and `next`
fields are the computed ones. -/
theorem getToken_ok_inv (tm : TokenManager) (now : Nat)
    (previousToken : Option SignedToken) (subjectID secret : String)
    (method : Option String) (p? : Option TokenClaims) (m' : String)
    (r : AuthResult SignedToken)
    (hv : verifyPreviousToken tm now previousToken subjectID method =
      .ok (p?, m'))
    (hg : getToken tm now previousToken subjectID secret method = .ok r) :
    r.final =
      decide (jsIndexOf tm.authSteps m' = (tm.authSteps.length : Int) - 1) ∧
    r.next =
      (if decide (jsIndexOf tm.authSteps m' =
          (tm.authSteps.length : Int) - 1) = true then none
       else some [(tm.authSteps.get?
         ((jsIndexOf tm.authSteps m').toNat + 1)).getD "undefined"]) := by
  unfold getToken at hg
  rw [hv] at hg
  dsimp only at hg
  split at hg
  · exact absurd hg (by simp)
  · rename_i token heq
    have hr := construct_ok_elim (fun _ => false) token _ _ r rfl ?_ hg
    · rw [hr]
      exact ⟨rfl, rfl⟩
    · by_cases hF : decide (jsIndexOf tm.authSteps m' =
          (tm.authSteps.length : Int) - 1) = true
      · exact Or.inl hF
      · right
        refine ⟨(tm.authSteps.get?
          ((jsIndexOf tm.authSteps m').toNat + 1)).getD "undefined", [], ?_⟩
        rw [if_neg hF]

/-- C3: (a) a successful `getToken` returns `final = true` exactly when the
resolved method is the last entry of the (duplicate-free) Auth Step
Sequence, with `next = null` when final and otherwise the one-element list
holding the entry immediately after the resolved method; (b) along the chain
of calls in which each call supplies the immediately preceding call's token,
all of the first N calls succeed and exactly the N-th yields
`final = true`. -/
theorem getToken_finality (tm : TokenManager) (now : Nat) (subjectID : String)
    (hnd : tm.authSteps.Nodup) :
    (∀ (previousToken : Option SignedToken) (secret : String)
        (method : Option String) (p? : Option TokenClaims) (m' : String)
        (r : AuthResult SignedToken),
      verifyPreviousToken tm now previousToken subjectID method =
        .ok (p?, m') →
      getToken tm now previousToken subjectID secret method = .ok r →
      (r.final = true ↔ tm.authSteps.getLast? = some m') ∧
      (r.final = true → r.next = none) ∧
      (r.final = false → ∃ m'',
        tm.authSteps.get? ((jsIndexOf tm.authSteps m').toNat + 1) = some m'' ∧
        r.next = some [m''])) ∧
    (∀ (secrets : Nat → String),
      (∀ s ∈ tm.authSteps, ∃ b, tm.authBackends s = some b ∧
        ∀ u sec, b.authenticate u sec = .ok ()) →
      ∀ k, k < tm.authSteps.length →
        ∃ r, chain tm now subjectID secrets k = .ok r ∧
          (r.final = true ↔ k = tm.authSteps.length - 1)) := by
  constructor
  · intro previousToken secret method p? m' r hv hg
    have hnn := verifyPreviousToken_ok_nonneg tm now previousToken subjectID
      method p? m' hv
    have hlt := jsIndexOf_lt_length tm.authSteps m'
    have hget := jsIndexOf_get? tm.authSteps m' hnn
    obtain ⟨hfin, hnext⟩ := getToken_ok_inv tm now previousToken subjectID
      secret method p? m' r hv hg
    refine ⟨?_, ?_, ?_⟩
    · rw [hfin, decide_eq_true_eq]
      constructor
      · intro hEq
        have htn : (jsIndexOf tm.authSteps m').toNat =
            tm.authSteps.length - 1 := by omega
        rw [htn] at hget
        rw [List.getLast?_eq_getElem?, ← List.get?_eq_getElem?]
        exact hget
      · intro hlast
        have hne : tm.authSteps ≠ [] := by
          intro hc
          rw [hc] at hlast
          simp at hlast
        have hlen : 0 < tm.authSteps.length := List.length_pos.mpr hne
        have hget2 : tm.authSteps.get? (tm.authSteps.length - 1) = some m' := by
          rw [List.get?_eq_getElem?, ← List.getLast?_eq_getElem?]
          exact hlast
        have := jsIndexOf_nodup_get? _ _ _ hnd hget2
        omega
    · intro hfin_true
      rw [hfin] at hfin_true
      rw [hnext, if_pos hfin_true]
    · intro hfin_false
      rw [hfin] at hfin_false
      have hne2 : ¬(jsIndexOf tm.authSteps m' =
          (tm.authSteps.length : Int) - 1) :=
        decide_eq_false_iff_not.mp hfin_false
      have hlt2 : (jsIndexOf tm.authSteps m').toNat + 1 <
          tm.authSteps.length := by omega
      have hg2 : tm.authSteps.get? ((jsIndexOf tm.authSteps m').toNat + 1) =
          some (tm.authSteps.get ⟨_, hlt2⟩) := List.get?_eq_get hlt2
      refine ⟨tm.authSteps.get ⟨_, hlt2⟩, hg2, ?_⟩
      rw [hnext, if_neg (by simp [hfin_false]), hg2]
      rfl
  · intro secrets hbAll k hk
    refine ⟨_, chain_ok tm now subjectID secrets hnd hbAll k hk, ?_⟩
    dsimp only
    rw [decide_eq_true_eq]
    omega

/-- C3 witness: over the two-step configuration with accepting backends, the
second chained call succeeds and is exactly the one that yields a final
token. -/
theorem getToken_finality_witness :
    tmTwo.authSteps.Nodup ∧
    (∃ r, chain tmTwo 0 "user1" (fun _ => "s") 1 = .ok r ∧
      (r.final = true ↔ 1 = tmTwo.authSteps.length - 1)) :=
  ⟨by decide,
    (getToken_finality tmTwo 0 "user1" (by decide)).2 (fun _ => "s")
      (by
        intro s hs
        have hs2 : s = "password" ∨ s = "date" := by simpa [tmTwo] using hs
        refine ⟨okBackend, ?_, fun _ _ => rfl⟩
        rcases hs2 with h | h <;> rw [h] <;> rfl)
      1 (by decide)⟩

end Masterkey
